import Mathlib

/-!
Shallow embedding of `munge_sumstats.py` (column resolution and the
row-filtering pipeline of the ldsc summary-statistics munging tool).

Strings that undergo character-level transformations (file headers,
alleles) are modelled as lists of Unicode codepoints (`List Nat`), which
is exactly what a Python `str` is; `hdr` converts a Lean string literal
to that representation.  Floating-point columns are modelled as `ℚ`:
every filter in the source only compares, adds, negates, divides and
takes min/max, so rational arithmetic is faithful.  Missing values
(`NaN` / `NA`) are modelled as `Option`.
-/

namespace LDSC

/-- Codepoint representation of a Python string (used for file headers and
alleles, which the source transforms character by character). -/
def hdr (s : String) : List Nat :=
  s.toList.map Char.toNat

/-- A raw or cleaned column header, as a sequence of codepoints. -/
abbrev Header := List Nat

/-- `str.upper()` on one codepoint, for the ASCII range the headers use
(lowercase `a`..`z` is `97`..`122`; uppercasing subtracts 32). -/
def upper_char (c : Nat) : Nat :=
  if 97 ≤ c ∧ c ≤ 122 then c - 32 else c

/-- `str.replace(a, b)` on one codepoint. -/
def replace_char (a b c : Nat) : Nat :=
  if c = a then b else c

/-- Embeds `clean_header`: uppercase, then `'-'` (45) and `'.'` (46) become
`'_'` (95), then newlines (10) are removed. -/
def clean_header (s : Header) : Header :=
  ((((s.map upper_char).map (replace_char 45 95)).map (replace_char 46 95)).filter
    (fun c => c != 10))

/-- The closed enumeration of internal column names (`FieldName`). -/
inductive Field where
  | SNP | NSTUDY | P | A1 | A2 | N | N_CAS | N_CON
  | Z | OR | BETA | LOG_ODDS | SIGNED_SUMSTAT | INFO | FRQ
  deriving DecidableEq, Repr

/-- The fatal errors raised by the modelled fragment.
`noObjectsToConcatenate` stands for the `ValueError` that
`pd.concat` raises on an empty list of chunks. -/
inductive MungeError where
  | noObjectsToConcatenate
  | emptyResult
  | allAllelesDiscordant
  | tooManySignedSumstatColumns
  | noSignedSumstatColumn
  deriving DecidableEq, Repr

/-- Embeds the `null_values` dict: the four signed-statistic fields with
their null (no-effect) values. -/
def null_value : Field → Option ℚ
  | .LOG_ODDS => some 0
  | .BETA => some 0
  | .OR => some 1
  | .Z => some 0
  | _ => none

/-- Membership of a field in the keys of `null_values`. -/
def isSignedField (f : Field) : Bool :=
  (null_value f).isSome

/-- Embeds the `default_cnames` dict as an insertion-ordered association
list (the source dict literal repeats the key `"N_CASE"` with the same
value; a dict keeps one entry, so it appears once here). -/
def default_cnames : List (Header × Field) :=
  [ (hdr "SNP", .SNP), (hdr "MARKERNAME", .SNP), (hdr "SNPID", .SNP),
    (hdr "RS", .SNP), (hdr "RSID", .SNP), (hdr "RS_NUMBER", .SNP),
    (hdr "RS_NUMBERS", .SNP),
    (hdr "NSTUDY", .NSTUDY), (hdr "N_STUDY", .NSTUDY),
    (hdr "NSTUDIES", .NSTUDY), (hdr "N_STUDIES", .NSTUDY),
    (hdr "P", .P), (hdr "PVALUE", .P), (hdr "P_VALUE", .P),
    (hdr "PVAL", .P), (hdr "P_VAL", .P), (hdr "GC_PVALUE", .P),
    (hdr "A1", .A1), (hdr "ALLELE1", .A1), (hdr "ALLELE_1", .A1),
    (hdr "EFFECT_ALLELE", .A1), (hdr "REFERENCE_ALLELE", .A1),
    (hdr "INC_ALLELE", .A1), (hdr "EA", .A1),
    (hdr "A2", .A2), (hdr "ALLELE2", .A2), (hdr "ALLELE_2", .A2),
    (hdr "OTHER_ALLELE", .A2), (hdr "NON_EFFECT_ALLELE", .A2),
    (hdr "DEC_ALLELE", .A2), (hdr "NEA", .A2),
    (hdr "N", .N), (hdr "NCASE", .N_CAS), (hdr "CASES_N", .N_CAS),
    (hdr "N_CASE", .N_CAS), (hdr "N_CASES", .N_CAS),
    (hdr "N_CONTROLS", .N_CON), (hdr "N_CAS", .N_CAS),
    (hdr "N_CON", .N_CON), (hdr "NCONTROL", .N_CON),
    (hdr "CONTROLS_N", .N_CON), (hdr "N_CONTROL", .N_CON),
    (hdr "WEIGHT", .N),
    (hdr "ZSCORE", .Z), (hdr "Z-SCORE", .Z), (hdr "GC_ZSCORE", .Z),
    (hdr "Z", .Z), (hdr "OR", .OR), (hdr "B", .BETA), (hdr "BETA", .BETA),
    (hdr "LOG_ODDS", .LOG_ODDS), (hdr "EFFECTS", .BETA),
    (hdr "EFFECT", .BETA), (hdr "SIGNED_SUMSTAT", .SIGNED_SUMSTAT),
    (hdr "INFO", .INFO),
    (hdr "EAF", .FRQ), (hdr "FRQ", .FRQ), (hdr "MAF", .FRQ),
    (hdr "FRQ_U", .FRQ), (hdr "F_U", .FRQ) ]

/-- Embeds `get_cname_map`: (1) drop everything whose key is in the
cleaned ignore list, (2) keep the flag entries, (3) append default
entries whose key is neither ignored nor a flag key.  Python's
`dict.update` appends because the added keys are disjoint from the
existing ones by construction. -/
def get_cname_map (flag default : List (Header × Field)) (ignore : List Header) :
    List (Header × Field) :=
  flag.filter (fun kv => kv.1 ∉ ignore.map clean_header) ++
    default.filter (fun kv => kv.1 ∉ ignore.map clean_header ∧ kv.1 ∉ flag.map Prod.fst)

/-- Embeds the `cname_translation` comprehension: each raw file header
whose cleaned form is a key of the cname map is bound (uncleaned) to the
mapped field. -/
def cname_translation (file_cnames : List Header) (cmap : List (Header × Field)) :
    List (Header × Field) :=
  file_cnames.filterMap (fun x => (cmap.lookup (clean_header x)).map (fun v => (x, v)))

/-- Embeds the signed-statistic resolution block that runs when
`--signed-sumstats` was not given and `--a1-inc` is not set: collect the
translation entries whose field is a key of `null_values`, raise if more
than one, raise if none, otherwise return the chosen entry with its null
value (the source then renames the field to `SIGNED_SUMSTAT`). -/
def resolve_signed (translation : List (Header × Field)) :
    Except MungeError ((Header × Field) × ℚ) :=
  if 1 < (translation.filter (fun kv => isSignedField kv.2)).length then
    .error .tooManySignedSumstatColumns
  else
    match (translation.filter (fun kv => isSignedField kv.2)).head? with
    | none => .error .noSignedSumstatColumn
    | some kv => .ok (kv, (null_value kv.2).getD 0)

/-- Embeds `filter_pvals` for one value: keep `0 < P ≤ 1`. -/
def filter_pvals (p : ℚ) : Bool :=
  0 < p && p ≤ 1

/-- Embeds `filter_frq` for one value: flag out-of-bounds `FRQ` (`jj`),
fold to `min(frq, 1-frq)` locally, keep folded values above `maf_min`
and not out of bounds.  The folding is local to the mask computation;
the caller's stored `FRQ` column is not modified. -/
def filter_frq (maf_min : ℚ) (frq : ℚ) : Bool :=
  let jj := frq < 0 || frq > 1
  let folded := min frq (1 - frq)
  let ii := folded > maf_min
  ii && !jj

/-- A row as seen by the FRQ filter stage: its SNP id and stored FRQ. -/
structure FrqRow where
  snp : String
  frq : ℚ
  deriving DecidableEq, Repr

/-- The FRQ stage of `parse_dat`: `ii &= filter_frq(dat["FRQ"], args)` and
the eventual `dat[ii]` — rows are kept or dropped, never rewritten. -/
def frq_stage (maf_min : ℚ) (rows : List FrqRow) : List FrqRow :=
  rows.filter (fun r => filter_frq maf_min r.frq)

/-- Embeds the NA filter of `parse_dat` (which runs before headers are
renamed): `dat.dropna(how="any", subset=[x for x in dat.columns if x !=
"INFO"])`.  A row (aligned positionally with the raw headers) is kept
iff every cell under a raw header other than the literal string
`"INFO"` is non-missing. -/
def dropna_exempt_info (headers : List Header) (rows : List (List (Option ℚ))) :
    List (List (Option ℚ)) :=
  rows.filter (fun r =>
    ((headers.zip r).filter (fun hc => hc.1 != hdr "INFO")).all (fun hc => hc.2.isSome))

/-- Modelled from the spec: the base complement map (`A↔T`, `C↔G`) of the
`ldsc.ldscore.sumstats` module, whose source is not in the repository
snapshot.  Codepoints: `A`=65, `C`=67, `G`=71, `T`=84. -/
def COMPLEMENT (c : Nat) : Nat :=
  if c = 65 then 84
  else if c = 84 then 65
  else if c = 67 then 71
  else if c = 71 then 67
  else c

/-- One of the four canonical bases. -/
def isBase (c : Nat) : Bool :=
  c = 65 || c = 67 || c = 71 || c = 84

/-- Modelled from the spec: a strand-unambiguous valid SNP allele pair —
two distinct canonical bases that are not complementary (the
`VALID_SNPS` set of `ldsc.ldscore.sumstats`). -/
def validPair (x y : Nat) : Bool :=
  isBase x && isBase y && x != y && COMPLEMENT x != y

/-- Modelled from the spec: membership of the two-character string
`a1 + a2` in `VALID_SNPS`, as tested by `filter_alleles`. -/
def validSnp (s : List Nat) : Bool :=
  match s with
  | [x, y] => validPair x y
  | _ => false

/-- Modelled from the spec: membership of the four-character string
`a1 + a2 + ma` in `MATCH_ALLELES` — both pairs are valid SNPs and they
agree up to reference flip and/or strand (complement) flip. -/
def matchAlleles (s : List Nat) : Bool :=
  match s with
  | [a, b, c, d] =>
      validPair a b && validPair c d &&
        ((a = c && b = d) || (a = d && b = c) ||
          (a = COMPLEMENT c && b = COMPLEMENT d) ||
          (a = COMPLEMENT d && b = COMPLEMENT c))
  | _ => false

/-- A fully resolved, non-missing data row as it flows through the
chunked filter pipeline (columns `SNP`, `P`, `A1`, `A2`, `N`).  The NA
filter is modelled separately (`dropna_exempt_info`) on untyped rows;
rows of this type are the ones that survived it. -/
structure Row where
  snp : String
  p : ℚ
  a1 : List Nat
  a2 : List Nat
  n : ℚ
  deriving DecidableEq, Repr

/-- The in-place allele upper-casing of `parse_dat`
(`dat.A1 = dat.A1.str.upper()`, same for `A2`). -/
def upper_alleles (r : Row) : Row :=
  { r with a1 := r.a1.map upper_char, a2 := r.a2.map upper_char }

/-- The conjoined row mask of one `parse_dat` chunk iteration for this
schema: the P-value filter and the allele filter
(`filter_alleles(dat.A1 + dat.A2)`). -/
def row_mask (r : Row) : Bool :=
  filter_pvals r.p && validSnp (r.a1 ++ r.a2)

/-- One `parse_dat` chunk iteration (no `--merge-alleles`, no `INFO`/`FRQ`
columns in this schema): alleles are upper-cased in place, then the
P-value and allele masks are conjoined and the chunk is cut to `dat[ii]`. -/
def chunk_filter (rows : List Row) : List Row :=
  (rows.map upper_alleles).filter row_mask

/-- Embeds the chunk loop of `parse_dat`: chunks whose surviving index set
is empty are skipped (`continue`), the rest are appended to `dat_list`,
and `pd.concat(dat_list)` assembles the result — raising pandas'
"no objects to concatenate" `ValueError` when `dat_list` is empty. -/
def parse_dat_chunks (chunks : List (List Row)) : Except MungeError (List Row) :=
  let dat_list := (chunks.map chunk_filter).filter (fun c => c ≠ [])
  if dat_list.isEmpty then .error .noObjectsToConcatenate else .ok dat_list.flatten

/-- Helper for `drop_duplicates`: keep a row iff its SNP has not been seen
in an earlier row. -/
def dedupAux (seen : List String) : List Row → List Row
  | [] => []
  | r :: rs =>
      if r.snp ∈ seen then dedupAux seen rs
      else r :: dedupAux (r.snp :: seen) rs

/-- Embeds `dat.drop_duplicates(subset="SNP")` (pandas default
`keep="first"`). -/
def drop_duplicates (l : List Row) : List Row :=
  dedupAux [] l

/-- Embeds `Series.quantile(0.9)` with pandas' default linear
interpolation: with the values sorted, the quantile sits at fractional
position `h = 0.9 * (n - 1)`, between index `k = ⌊h⌋` (computed here by
exact natural division, which agrees with the rational floor for
`n ≥ 1`) and index `k + 1`, with fractional weight `g = h - k`.
(pandas returns NaN on an empty series; the pipeline only evaluates
this on nonempty tables.) -/
def quantile90 (xs : List ℚ) : ℚ :=
  let s := xs.insertionSort (· ≤ ·)
  let n := s.length
  let k : Nat := 9 * (n - 1) / 10
  let g : ℚ := (9 : ℚ) / 10 * ((n : ℚ) - 1) - (k : ℚ)
  s.getD k 0 + g * (s.getD (k + 1) (s.getD k 0) - s.getD k 0)

/-- Embeds the `"N" in dat.columns` branch of `process_n`: the threshold
is `args.n_min if args.n_min else dat.N.quantile(0.9) / 1.5` — a Python
*truthiness* test, so both an unset flag (`None`) and an explicit `0`
fall back to the quantile-derived default — and rows with `N` below the
threshold are dropped. -/
def n_filter (n_min : Option ℚ) (rows : List Row) : List Row :=
  let t := match n_min with
    | some m => if m = 0 then quantile90 (rows.map Row.n) / (3 / 2) else m
    | none => quantile90 (rows.map Row.n) / (3 / 2)
  rows.filter (fun r => t ≤ r.n)

/-- The row-retention part of `munge_sumstats` after column resolution:
`parse_dat`, the empty-result check, `drop_duplicates`, then
`process_n`.  The later `p_to_z` / sign steps transform values but never
add or remove rows, so they are irrelevant to row retention. -/
def munge (n_min : Option ℚ) (chunks : List (List Row)) : Except MungeError (List Row) :=
  match parse_dat_chunks chunks with
  | .error e => .error e
  | .ok dat =>
      if dat.length = 0 then .error .emptyResult
      else .ok (n_filter n_min (drop_duplicates dat))

/-- A row as seen by the case/control branch of `process_n`. -/
structure CCRow where
  n_cas : ℚ
  n_con : ℚ
  deriving DecidableEq, Repr

/-- `Series.max()` (the pipeline only calls it on nonempty tables). -/
def seriesMax : List ℚ → ℚ
  | [] => 0
  | x :: xs => xs.foldl max x

/-- `Series.mean()`. -/
def seriesMean (xs : List ℚ) : ℚ :=
  xs.sum / (xs.length : ℚ)

/-- Embeds the `N_CAS`/`N_CON` branch of `process_n`:
`N = N_CAS + N_CON`, `P = N_CAS / N`, and the rewritten column is
`N * P / P[N == N.max()].mean()`.  The two source columns are dropped,
which the return type (just the new `N` values, row-aligned) reflects. -/
def process_n_cascon (dat : List CCRow) : List ℚ :=
  let totals := dat.map (fun r => r.n_cas + r.n_con)
  let m := seriesMax totals
  let pbar := seriesMean
    ((dat.filter (fun r => r.n_cas + r.n_con = m)).map
      (fun r => r.n_cas / (r.n_cas + r.n_con)))
  dat.map (fun r => (r.n_cas + r.n_con) * (r.n_cas / (r.n_cas + r.n_con)) / pbar)

/-- One row of the `--merge-alleles` reference panel after preprocessing:
its SNP id and the upper-cased concatenated allele pair `MA`. -/
structure PanelRow where
  snp : String
  ma : List Nat
  deriving DecidableEq, Repr

/-- The non-key payload of a summary-statistics row at the allele-merge
stage: alleles plus the numeric columns (`Z`, `N`). -/
structure SumBody where
  a1 : List Nat
  a2 : List Nat
  z : ℚ
  n : ℚ
  deriving DecidableEq, Repr

/-- A summary-statistics row entering `allele_merge` (post-filtering, so
all fields are present). -/
structure SumRow where
  snp : String
  body : SumBody
  deriving DecidableEq, Repr

/-- A row of the `allele_merge` output: the SNP key always survives;
every non-key field is either fully present or nulled out. -/
structure MergedRow where
  snp : String
  body : Option SumBody
  deriving DecidableEq, Repr

/-- The allele-match test of `allele_merge`:
`(dat.A1 + dat.A2 + dat.MA) in sumstats.MATCH_ALLELES`. -/
def matchTest (d : SumRow) (p : PanelRow) : Bool :=
  matchAlleles (d.body.a1 ++ d.body.a2 ++ p.ma)

/-- Embeds `pd.merge(alleles, dat, how="left", on="SNP", sort=False)`:
one group of output rows per panel row in panel order; a panel row with
no match yields a single row with null dat-side fields, and one with
matches yields one row per matching dat row, in dat order. -/
def merge_left (alleles : List PanelRow) (dat : List SumRow) :
    List (PanelRow × Option SumRow) :=
  alleles.flatMap (fun p =>
    match dat.filter (fun d => d.snp == p.snp) with
    | [] => [(p, none)]
    | ms => ms.map (fun d => (p, some d)))

/-- Embeds `allele_merge`: left-join onto the panel, test the non-null
rows' alleles against `MATCH_ALLELES`, raise when not a single row
matches (`n_mismatch < old` fails exactly then), and null every non-key
field of the rows that are null or fail the test.  The `MA` column is
dropped at the end, which the output type reflects. -/
def allele_merge (dat : List SumRow) (alleles : List PanelRow) :
    Except MungeError (List MergedRow) :=
  if (merge_left alleles dat).countP (fun pr =>
      match pr.2 with
      | some d => matchTest d pr.1
      | none => false) = 0 then
    .error .allAllelesDiscordant
  else .ok ((merge_left alleles dat).map (fun pr =>
    match pr.2 with
    | some d => if matchTest d pr.1 then ⟨pr.1.snp, some d.body⟩ else ⟨pr.1.snp, none⟩
    | none => ⟨pr.1.snp, none⟩))

/-- The spec's "aligned-join" contract (§4.7, §9): one output row per
panel row, in panel order, keyed by the panel's SNP; the payload is the
table row's non-key fields when the table has that SNP and its alleles
match, and null otherwise. -/
def alignedJoin (alleles : List PanelRow) (dat : List SumRow) : List MergedRow :=
  alleles.map (fun p =>
    match dat.find? (fun d => d.snp == p.snp) with
    | some d => if matchTest d p then ⟨p.snp, some d.body⟩ else ⟨p.snp, none⟩
    | none => ⟨p.snp, none⟩)

/-- A pipeline row with fixed clean `P` and alleles (`A`/`C`), used by
the concrete pipeline scenarios. -/
def mkRow (s : String) (n : ℚ) : Row :=
  ⟨s, 1 / 2, [65], [67], n⟩

/-- A 7-row clean table whose `N` column is `[50, 100 ×5, 210]`. -/
def t0_c7 : List Row :=
  [mkRow "s1" 50, mkRow "s2" 100, mkRow "s3" 100, mkRow "s4" 100,
    mkRow "s5" 100, mkRow "s6" 100, mkRow "s7" 210]

/-- The output of one `munge` pass (default N threshold) on `t0_c7`. -/
def t1_c7 : List Row :=
  [mkRow "s2" 100, mkRow "s3" 100, mkRow "s4" 100,
    mkRow "s5" 100, mkRow "s6" 100, mkRow "s7" 210]

/-- The output of a second `munge` pass on `t1_c7`. -/
def t2_c7 : List Row :=
  [mkRow "s7" 210]

/-- A row whose P-value `2` fails the P filter, so a chunk holding only
this row is filtered down to nothing. -/
def bad_row_c6 : Row :=
  ⟨"rs1", 2, [65], [67], 100⟩

/-- A two-row reference panel: `rs1` with allele pair `AG`, `rs2` with
allele pair `AC`. -/
def pnl_c3 : List PanelRow :=
  [⟨"rs1", hdr "AG"⟩, ⟨"rs2", hdr "AC"⟩]

/-- A one-row table whose `rs1` alleles `G`/`A` match the panel's `AG`
pair in flipped order; `rs2` is absent. -/
def dt_c3 : List SumRow :=
  [⟨"rs1", ⟨hdr "G", hdr "A", 1, 100⟩⟩]

/-! ### Helper lemmas -/

/-- One application of the per-character normalization chain is a fixed
point of a second application. -/
theorem clean_char_fix (c : Nat) :
    replace_char 46 95 (replace_char 45 95 (upper_char
      (replace_char 46 95 (replace_char 45 95 (upper_char c))))) =
      replace_char 46 95 (replace_char 45 95 (upper_char c)) := by
  unfold upper_char replace_char
  split_ifs <;> omega

/-- `clean_header` as a single map-then-filter. -/
theorem clean_header_eq_map_filter (s : Header) :
    clean_header s =
      (s.map (fun c => replace_char 46 95 (replace_char 45 95 (upper_char c)))).filter
        (fun c => c != 10) := by
  unfold clean_header
  rw [List.map_map, List.map_map]
  rfl

/-- `dedupAux` only ever removes rows: its result is a sublist of its
input. -/
theorem dedupAux_sublist (seen : List String) (l : List Row) :
    (dedupAux seen l).Sublist l := by
  induction l generalizing seen with
  | nil => simp [dedupAux]
  | cons r rs ih =>
    unfold dedupAux
    split_ifs with h
    · exact (ih seen).cons r
    · exact (ih (r.snp :: seen)).cons₂ r

/-- Key-wise characterization of `dedupAux`: for any SNP id, the rows it
keeps with that id are none if the id was already seen, else exactly the
first input row carrying it. -/
theorem dedupAux_filter_key (seen : List String) (l : List Row) (s : String) :
    (dedupAux seen l).filter (fun r => r.snp == s) =
      if s ∈ seen then [] else (l.filter (fun r => r.snp == s)).take 1 := by
  induction l generalizing seen with
  | nil => simp [dedupAux]
  | cons r rs ih =>
    unfold dedupAux
    by_cases hm : r.snp ∈ seen
    · rw [if_pos hm, ih]
      by_cases hs : s ∈ seen
      · rw [if_pos hs, if_pos hs]
      · have hrs : ¬ ((r.snp == s) = true) := by
          simp only [beq_iff_eq]
          intro he
          exact hs (he ▸ hm)
        rw [if_neg hs, if_neg hs, List.filter_cons, if_neg hrs]
    · rw [if_neg hm, List.filter_cons]
      by_cases hrs : (r.snp == s) = true
      · have hsr : r.snp = s := by simpa using hrs
        have hss : s ∈ r.snp :: seen := by simp [hsr]
        have hns : s ∉ seen := hsr ▸ hm
        rw [if_pos hrs, ih, if_pos hss, if_neg hns, List.filter_cons, if_pos hrs]
        simp
      · have hss : (s ∈ r.snp :: seen) ↔ s ∈ seen := by
          simp only [List.mem_cons, or_iff_right_iff_imp]
          intro he
          exact absurd (congrArg (· == s) he.symm) (by simpa using hrs)
        rw [if_neg hrs, ih, List.filter_cons, if_neg hrs]
        by_cases hs : s ∈ seen
        · rw [if_pos (hss.mpr hs), if_pos hs]
        · rw [if_neg (fun hmem => hs (hss.mp hmem)), if_neg hs]

/-- `dedupAux` never keeps a row whose SNP is in `seen`, and the SNPs it
keeps are pairwise distinct. -/
theorem dedupAux_nodup (seen : List String) (l : List Row) :
    (∀ x ∈ dedupAux seen l, x.snp ∉ seen) ∧ ((dedupAux seen l).map Row.snp).Nodup := by
  induction l generalizing seen with
  | nil => simp [dedupAux]
  | cons r rs ih =>
    unfold dedupAux
    split_ifs with h
    · exact ih seen
    · refine ⟨?_, ?_⟩
      · intro x hx
        rcases List.mem_cons.mp hx with hx1 | hx2
        · exact hx1 ▸ h
        · intro hxs
          exact (ih (r.snp :: seen)).1 x hx2 (List.mem_cons_of_mem _ hxs)
      · rw [List.map_cons, List.nodup_cons]
        refine ⟨?_, (ih (r.snp :: seen)).2⟩
        intro hmem
        rcases List.mem_map.mp hmem with ⟨x, hx, hxe⟩
        exact (ih (r.snp :: seen)).1 x hx (hxe ▸ List.mem_cons_self _ _)

/-- If the input's SNPs are already pairwise distinct (and none is
pre-seen), `dedupAux` keeps every row. -/
theorem dedupAux_eq_self (seen : List String) (l : List Row)
    (hs : ∀ x ∈ l, x.snp ∉ seen) (hn : (l.map Row.snp).Nodup) :
    dedupAux seen l = l := by
  induction l generalizing seen with
  | nil => simp [dedupAux]
  | cons r rs ih =>
    unfold dedupAux
    rw [if_neg (hs r (List.mem_cons_self _ _)), ih (r.snp :: seen) ?_ ?_]
    · intro x hx
      simp only [List.mem_cons]
      rintro (h1 | h2)
      · rw [List.map_cons, List.nodup_cons] at hn
        exact hn.1 (h1 ▸ List.mem_map_of_mem Row.snp hx)
      · exact hs x (List.mem_cons_of_mem _ hx) h2
    · rw [List.map_cons, List.nodup_cons] at hn
      exact hn.2

/-! ### Claim theorems -/

/-- Claim C8, counterexample: header normalization does *not* identify
`"RS.ID"` with `"RSID"` — the separator is replaced by an underscore,
not removed, so the two normalize to different canonical labels. -/
theorem clean_header_rsid_counterexample :
    clean_header (hdr "RS.ID") ≠ clean_header (hdr "RSID") := by decide

/-- Claim C8 (amended): header normalization is idempotent for every
string, and identifies headers that differ only in letter case and in
`'-'`/`'.'` versus `'_'` separators — `"rs-Id"` and `"RS.ID"` both
normalize to `"RS_ID"` — but a header without any separator (`"RSID"`)
normalizes to a distinct label. -/
theorem clean_header_idempotent_canonical :
    (∀ s : Header, clean_header (clean_header s) = clean_header s) ∧
      clean_header (hdr "rs-Id") = clean_header (hdr "RS.ID") ∧
      clean_header (hdr "rs-Id") = hdr "RS_ID" := by
  refine ⟨?_, by decide, by decide⟩
  intro s
  rw [clean_header_eq_map_filter, clean_header_eq_map_filter]
  set f : Nat → Nat := fun c => replace_char 46 95 (replace_char 45 95 (upper_char c)) with hf
  have hmapfix : ((s.map f).filter (fun c => c != 10)).map f =
      (s.map f).filter (fun c => c != 10) := by
    have h1 : ∀ c ∈ (s.map f).filter (fun c => c != 10), f c = id c := by
      intro c hc
      have hc2 : c ∈ s.map f := List.mem_of_mem_filter hc
      rcases List.mem_map.mp hc2 with ⟨y, _, hy⟩
      subst hy
      simpa [hf] using clean_char_fix y
    rw [List.map_congr_left h1, List.map_id]
  rw [hmapfix, List.filter_filter]
  simp

/-- Claim C1, counterexample: a row with `FRQ = 0.9` is retained by the
FRQ filter (its folded frequency `0.1` exceeds the default minimum
`0.01`), and the stored `FRQ` of the retained row is the original `0.9`,
which is neither the folded value nor `≤ 0.5`: `filter_frq` folds only
inside the mask computation and never writes the column back. -/
theorem frq_stage_unfolded_counterexample :
    frq_stage (1 / 100) [⟨"rs1", 9 / 10⟩] = [⟨"rs1", 9 / 10⟩] ∧
      (9 : ℚ) / 10 ≠ min ((9 : ℚ) / 10) (1 - 9 / 10) ∧ ¬ ((9 : ℚ) / 10 ≤ 1 / 2) := by
  refine ⟨?_, by norm_num [min_def], by norm_num⟩
  norm_num [frq_stage, filter_frq, List.filter_cons, min_def]

/-- Claim C1 (amended): a row is retained by the FRQ filter iff it was
present and its *folded* minor-allele frequency `min(FRQ, 1-FRQ)`
strictly exceeds `maf_min` and its FRQ lies in `[0,1]`; retained rows
are passed through unchanged, so the stored FRQ is the original
(unfolded) input value. -/
theorem frq_stage_characterization (maf_min : ℚ) (rows : List FrqRow) (r : FrqRow) :
    r ∈ frq_stage maf_min rows ↔
      r ∈ rows ∧ maf_min < min r.frq (1 - r.frq) ∧ 0 ≤ r.frq ∧ r.frq ≤ 1 := by
  unfold frq_stage filter_frq
  simp only [List.mem_filter, Bool.and_eq_true, Bool.not_eq_true', Bool.or_eq_false_iff,
    decide_eq_true_eq, decide_eq_false_iff_not, not_lt, gt_iff_lt]

/-- Claim C2, counterexample: the raw header `"Info"` resolves to the
`INFO` field (its cleaned form is `"INFO"`), yet a row whose only
missing value sits under `"Info"` is dropped by the NA filter: the
exemption tests the raw header against the literal string `"INFO"`,
before any renaming. -/
theorem dropna_info_raw_name_counterexample :
    (hdr "Info", Field.INFO) ∈
        cname_translation [hdr "SNP", hdr "P", hdr "Info"]
          (get_cname_map [] default_cnames []) ∧
      dropna_exempt_info [hdr "SNP", hdr "P", hdr "Info"]
          [[some 1, some (1 / 2), none]] = [] := by
  constructor
  · decide
  · decide

/-- Claim C2 (amended): the NA filter keeps exactly the rows whose every
cell under a raw header other than the literal string `"INFO"` is
present; the exemption is by raw header name, so any other raw header
that merely *resolves* to the `INFO` field is not exempt. -/
theorem dropna_exempt_info_spec (headers : List Header)
    (rows : List (List (Option ℚ))) (r : List (Option ℚ)) :
    r ∈ dropna_exempt_info headers rows ↔
      r ∈ rows ∧ ∀ hc ∈ headers.zip r, hc.1 ≠ hdr "INFO" → hc.2.isSome := by
  unfold dropna_exempt_info
  simp [List.mem_filter, List.all_eq_true, List.mem_filter]
  intro _
  constructor
  · intro h a b hab hne
    rcases h a b hab with h1 | h2
    · exact absurd h1 hne
    · exact h2
  · intro h a b hab
    by_cases ha : a = hdr "INFO"
    · exact Or.inl ha
    · exact Or.inr (h a b hab ha)

/-- Claim C5: in the branch where no `--signed-sumstats` flag was given
and `--a1-inc` is not set, column resolution raises the
"too many signed sumstat columns" error exactly when more than one file
column resolves to a signed-statistic field (`Z`, `OR`, `BETA`,
`LOG_ODDS`), and the "could not find a signed summary statistic column"
error exactly when none does. -/
theorem resolve_signed_errors_iff (t : List (Header × Field)) :
    (resolve_signed t = .error .tooManySignedSumstatColumns ↔
        1 < (t.filter (fun kv => isSignedField kv.2)).length) ∧
      (resolve_signed t = .error .noSignedSumstatColumn ↔
        (t.filter (fun kv => isSignedField kv.2)).length = 0) ∧
      ∀ f : Field, isSignedField f = true ↔
        (f = Field.Z ∨ f = Field.OR ∨ f = Field.BETA ∨ f = Field.LOG_ODDS) := by
  refine ⟨?_, ?_, by intro f; cases f <;> simp [isSignedField, null_value]⟩ <;>
    · unfold resolve_signed
      rcases hc : t.filter (fun kv => isSignedField kv.2) with _ | ⟨kv, rest⟩
      · rw [hc]
        simp
      · rcases rest with _ | ⟨kv2, rest2⟩
        · rw [hc]
          simp
        · rw [hc]
          have hl : 1 < (kv :: kv2 :: rest2).length := by
            simp only [List.length_cons]
            omega
          rw [if_pos hl]
          simp [hl]

/-- Claim C10: when surviving rows share a SNP id, `drop_duplicates`
(pandas default `keep="first"`) retains exactly the first occurrence in
input order and removes all later ones: its output is a subsequence of
the input, and for every SNP id the output's rows with that id are the
first input row carrying it. -/
theorem drop_duplicates_keeps_first (l : List Row) :
    (drop_duplicates l).Sublist l ∧
      ∀ s : String, (drop_duplicates l).filter (fun r => r.snp == s) =
        (l.filter (fun r => r.snp == s)).take 1 := by
  refine ⟨dedupAux_sublist [] l, fun s => ?_⟩
  rw [drop_duplicates, dedupAux_filter_key]
  simp

/-- A successful association-list lookup means the key occurs among the
stored keys. -/
theorem lookup_some_key (cmap : List (Header × Field)) (k : Header) (v : Field)
    (h : cmap.lookup k = some v) : k ∈ cmap.map Prod.fst := by
  induction cmap with
  | nil => simp [List.lookup] at h
  | cons kv rest ih =>
    rcases kv with ⟨k0, v0⟩
    rw [List.lookup] at h
    by_cases hk : k = k0
    · simp [hk]
    · rw [show (k == k0) = false by simpa using hk] at h
      exact List.mem_cons_of_mem _ (ih h)

/-- Claim C9: a label whose canonical form is in the ignore-set never
appears in the resolved raw-header-to-field map, whatever the user
overrides and the default dictionary say: both layers of
`get_cname_map` filter out ignored keys, and `cname_translation` binds a
raw header only through its cleaned form. -/
theorem ignored_label_absent (flag default : List (Header × Field))
    (ignore : List Header) (file_cnames : List Header) (x : Header)
    (hx : clean_header x ∈ ignore.map clean_header) :
    ∀ f : Field, (x, f) ∉ cname_translation file_cnames (get_cname_map flag default ignore) := by
  intro f hmem
  rcases List.mem_filterMap.mp hmem with ⟨y, _, hly⟩
  rcases Option.map_eq_some'.mp hly with ⟨v, hv, hpair⟩
  have hyx : y = x := congrArg Prod.fst hpair
  subst hyx
  have hkey := lookup_some_key _ _ _ hv
  rcases List.mem_map.mp hkey with ⟨kv, hkv, hk⟩
  unfold get_cname_map at hkv
  rcases List.mem_append.mp hkv with h1 | h2
  · have hflt := (List.mem_filter.mp h1).2
    simp only [decide_eq_true_eq] at hflt
    exact hflt (hk ▸ hx)
  · have hflt := (List.mem_filter.mp h2).2
    simp only [decide_eq_true_eq, Bool.and_eq_true] at hflt
    exact hflt.1 (hk ▸ hx)

/-- Claim C9, witness: with the ignore-set `["info"]`, the raw header
`"Info"` (canonical form `"INFO"`, which the default dictionary maps to
the `INFO` field) is absent from the resolved map. -/
theorem ignored_label_absent_witness :
    clean_header (hdr "Info") ∈ [hdr "info"].map clean_header ∧
      ∀ f : Field, (hdr "Info", f) ∉ cname_translation [hdr "SNP", hdr "Info"]
        (get_cname_map [] default_cnames [hdr "info"]) :=
  ⟨by decide,
    ignored_label_absent [] default_cnames [hdr "info"] [hdr "SNP", hdr "Info"]
      (hdr "Info") (by decide)⟩

/-- Sum of a constant list. -/
theorem sum_of_constant (xs : List ℚ) (c : ℚ) (h : ∀ x ∈ xs, x = c) :
    xs.sum = (xs.length : ℚ) * c := by
  induction xs with
  | nil => simp
  | cons a as ih =>
    rw [List.sum_cons, ih (fun x hx => h x (List.mem_cons_of_mem _ hx)),
      h a (List.mem_cons_self _ _)]
    push_cast [List.length_cons]
    ring

/-- Claim C4, counterexample: with rows `(N_CAS, N_CON) = (60, 40)` and
`(40, 60)`, both totals equal the maximum `100`, but the mean case
proportion at the maximum is `1/2`, so the first row's final `N` is
`100 · 0.6 / 0.5 = 120`, not its own total `100`: the rescaling factor
is 1 at the anchor only when all maximum-total rows share one
proportion. -/
theorem process_n_anchor_counterexample :
    (⟨60, 40⟩ : CCRow).n_cas + (⟨60, 40⟩ : CCRow).n_con =
        seriesMax (([⟨60, 40⟩, ⟨40, 60⟩] : List CCRow).map (fun t => t.n_cas + t.n_con)) ∧
      (process_n_cascon [⟨60, 40⟩, ⟨40, 60⟩])[0]? = some 120 ∧
      (120 : ℚ) ≠ 60 + 40 := by
  refine ⟨?_, ?_, by norm_num⟩
  · norm_num [seriesMax, max_def]
  · norm_num [process_n_cascon, seriesMax, seriesMean, List.filter_cons, max_def]

/-- Claim C4 (amended): when every row attaining the maximum total
`N_CAS + N_CON` has the same (nonzero) case proportion `p0` — in
particular when a single row attains the maximum — `process_n` assigns
each such row a final `N` equal to its own `N_CAS + N_CON` (and drops
the two source columns, reflected in the output type). -/
theorem process_n_rescale_anchor (dat : List CCRow) (p0 : ℚ) (hp : p0 ≠ 0)
    (hall : ∀ s ∈ dat,
      s.n_cas + s.n_con = seriesMax (dat.map (fun t => t.n_cas + t.n_con)) →
        s.n_cas / (s.n_cas + s.n_con) = p0)
    (i : Nat) (r : CCRow) (hi : dat[i]? = some r)
    (hmax : r.n_cas + r.n_con = seriesMax (dat.map (fun t => t.n_cas + t.n_con))) :
    (process_n_cascon dat)[i]? = some (r.n_cas + r.n_con) := by
  have hr : r ∈ dat := by
    rcases List.getElem?_eq_some.mp hi with ⟨hlt, hget⟩
    exact hget ▸ List.getElem_mem hlt
  have hrL : r.n_cas / (r.n_cas + r.n_con) ∈
      (dat.filter (fun t => decide (t.n_cas + t.n_con =
        seriesMax (dat.map (fun t => t.n_cas + t.n_con))))).map
        (fun t => t.n_cas / (t.n_cas + t.n_con)) := by
    refine List.mem_map_of_mem _ (List.mem_filter.mpr ⟨hr, ?_⟩)
    exact decide_eq_true hmax
  have hconst : ∀ x ∈ (dat.filter (fun t => decide (t.n_cas + t.n_con =
      seriesMax (dat.map (fun t => t.n_cas + t.n_con))))).map
        (fun t => t.n_cas / (t.n_cas + t.n_con)), x = p0 := by
    intro x hx
    rcases List.mem_map.mp hx with ⟨t, ht, hte⟩
    have h1 := (List.mem_filter.mp ht).1
    have h2 := of_decide_eq_true (List.mem_filter.mp ht).2
    exact hte ▸ hall t h1 h2
  have hlen : ((dat.filter (fun t => decide (t.n_cas + t.n_con =
      seriesMax (dat.map (fun t => t.n_cas + t.n_con))))).map
        (fun t => t.n_cas / (t.n_cas + t.n_con))).length ≠ 0 := by
    intro h0
    rw [List.length_eq_zero] at h0
    rw [h0] at hrL
    exact List.not_mem_nil _ hrL
  have hmean : seriesMean ((dat.filter (fun t => decide (t.n_cas + t.n_con =
      seriesMax (dat.map (fun t => t.n_cas + t.n_con))))).map
        (fun t => t.n_cas / (t.n_cas + t.n_con))) = p0 := by
    rw [seriesMean, sum_of_constant _ p0 hconst, mul_comm, mul_div_assoc,
      div_self (Nat.cast_ne_zero.mpr hlen), mul_one]
  simp only [process_n_cascon]
  rw [List.getElem?_map, hi, Option.map_some']
  rw [hmean, hall r hr hmax, mul_div_assoc, div_self hp, mul_one]

/-- Claim C4 (amended), witness: with rows `(60, 40)` and `(30, 20)` the
maximum total `100` is attained only by the first row, whose proportion
is `3/5 ≠ 0`, and its final `N` is exactly `100 = 60 + 40`. -/
theorem process_n_rescale_anchor_witness :
    ((3 : ℚ) / 5 ≠ 0) ∧
      (process_n_cascon [⟨60, 40⟩, ⟨30, 20⟩])[0]? =
        some ((⟨60, 40⟩ : CCRow).n_cas + (⟨60, 40⟩ : CCRow).n_con) :=
  ⟨by norm_num,
    process_n_rescale_anchor [⟨60, 40⟩, ⟨30, 20⟩] (3 / 5) (by norm_num)
      (by
        intro s hs h
        fin_cases hs
        · norm_num
        · norm_num [seriesMax, max_def] at h)
      0 ⟨60, 40⟩ rfl (by norm_num [seriesMax, max_def])⟩

/-- ASCII upper-casing is idempotent on codepoints. -/
theorem upper_char_idem (c : Nat) : upper_char (upper_char c) = upper_char c := by
  unfold upper_char
  split_ifs <;> omega

/-- Upper-casing the allele columns twice equals doing it once. -/
theorem upper_alleles_idem (r : Row) : upper_alleles (upper_alleles r) = upper_alleles r := by
  simp [upper_alleles, List.map_map, Function.comp_def, upper_char_idem]

/-- Every row surviving a chunk iteration has upper-cased alleles and
passes the row mask. -/
theorem mem_chunk_filter (r : Row) (c : List Row) (h : r ∈ chunk_filter c) :
    upper_alleles r = r ∧ row_mask r = true := by
  unfold chunk_filter at h
  have h1 := List.mem_filter.mp h
  rcases List.mem_map.mp h1.1 with ⟨y, _, hy⟩
  exact ⟨by rw [← hy, upper_alleles_idem], h1.2⟩

/-- A chunk iteration changes nothing on a chunk of already-upper-cased,
mask-passing rows. -/
theorem chunk_filter_eq_self (l : List Row) (hfix : ∀ r ∈ l, upper_alleles r = r)
    (hmask : ∀ r ∈ l, row_mask r = true) : chunk_filter l = l := by
  unfold chunk_filter
  have hmap : l.map upper_alleles = l := by
    conv_rhs => rw [← List.map_id l]
    exact List.map_congr_left hfix
  rw [hmap, List.filter_eq_self.mpr hmask]

/-- Inversion on a successful `munge` run: every output row has
upper-cased alleles, passes the row mask, and meets an explicit N
threshold when one was set; and the output's SNPs are pairwise
distinct. -/
theorem munge_ok_inversion (n_min : Option ℚ) (chunks : List (List Row)) (t : List Row)
    (h : munge n_min chunks = .ok t) :
    (∀ r ∈ t, upper_alleles r = r ∧ row_mask r = true ∧
        ∀ m, n_min = some m → m ≠ 0 → m ≤ r.n) ∧
      (t.map Row.snp).Nodup := by
  unfold munge at h
  rcases hp : parse_dat_chunks chunks with e | dat
  · rw [hp] at h
    exact absurd h (by simp)
  · rw [hp] at h
    replace h : (if dat.length = 0 then Except.error MungeError.emptyResult
      else Except.ok (n_filter n_min (drop_duplicates dat))) = Except.ok t := h
    by_cases hz : dat.length = 0
    · rw [if_pos hz] at h
      exact absurd h (by simp)
    · rw [if_neg hz] at h
      have ht : t = n_filter n_min (drop_duplicates dat) := (Except.ok.injEq _ _).mp h.symm
      subst ht
      constructor
      · intro r hr
        have hrd : r ∈ drop_duplicates dat := by
          unfold n_filter at hr
          exact (List.mem_filter.mp hr).1
        have hrdat : r ∈ dat := (dedupAux_sublist [] dat).mem hrd
        have hrchunk : ∃ c ∈ chunks.map chunk_filter, r ∈ c := by
          unfold parse_dat_chunks at hp
          by_cases he : ((chunks.map chunk_filter).filter (fun c => c ≠ [])).isEmpty
          · rw [if_pos he] at hp
            exact absurd hp (by simp)
          · rw [if_neg he] at hp
            have hdat : dat = ((chunks.map chunk_filter).filter (fun c => c ≠ [])).flatten :=
              ((Except.ok.injEq _ _).mp hp).symm
            rw [hdat] at hrdat
            rcases List.mem_flatten.mp hrdat with ⟨c, hc, hrc⟩
            exact ⟨c, (List.filter_sublist _).mem hc, hrc⟩
        rcases hrchunk with ⟨c, hc, hrc⟩
        rcases List.mem_map.mp hc with ⟨c0, _, hc0⟩
        have hprops := mem_chunk_filter r c0 (hc0 ▸ hrc)
        refine ⟨hprops.1, hprops.2, ?_⟩
        intro m hm hm0
        subst hm
        unfold n_filter at hr
        have hthr := (List.mem_filter.mp hr).2
        replace hthr : decide ((if m = 0 then
            quantile90 ((drop_duplicates dat).map Row.n) / (3 / 2) else m) ≤ r.n) = true := hthr
        rw [if_neg hm0] at hthr
        exact of_decide_eq_true hthr
      · have hnd : ((drop_duplicates dat).map Row.snp).Nodup := (dedupAux_nodup [] dat).2
        have hsub : ((n_filter n_min (drop_duplicates dat)).map Row.snp).Sublist
            ((drop_duplicates dat).map Row.snp) := by
          unfold n_filter
          exact (List.filter_sublist _).map Row.snp
        exact hnd.sublist hsub

/-- A single chunk that the chunk iteration leaves unchanged parses to
itself. -/
theorem parse_one_clean_chunk (c : List Row) (hcf : chunk_filter c = c) (hne : c ≠ []) :
    parse_dat_chunks [c] = .ok c := by
  unfold parse_dat_chunks
  rw [List.map_cons, List.map_nil, hcf, List.filter_cons, if_pos (decide_eq_true hne)]
  simp

/-- `munge` on a single self-filtering, duplicate-free chunk reduces to
the N filter. -/
theorem munge_eval_one_chunk (n_min : Option ℚ) (c : List Row)
    (hcf : chunk_filter c = c) (hne : c ≠ []) (hdd : drop_duplicates c = c) :
    munge n_min [c] = .ok (n_filter n_min c) := by
  unfold munge
  rw [parse_one_clean_chunk c hcf hne]
  show (if c.length = 0 then Except.error MungeError.emptyResult
    else Except.ok (n_filter n_min (drop_duplicates c))) = _
  rw [if_neg (fun h0 => hne (List.length_eq_zero.mp h0)), hdd]

/-- `munge` with an explicit nonzero N threshold maps a nonempty table
of upper-cased, mask-passing, threshold-meeting, SNP-distinct rows to
itself. -/
theorem munge_fixed (m : ℚ) (hm : m ≠ 0) (t : List Row) (hne : t ≠ [])
    (hfix : ∀ r ∈ t, upper_alleles r = r) (hmask : ∀ r ∈ t, row_mask r = true)
    (hn : ∀ r ∈ t, m ≤ r.n) (hnd : (t.map Row.snp).Nodup) :
    munge (some m) [t] = .ok t := by
  rw [munge_eval_one_chunk (some m) t (chunk_filter_eq_self t hfix hmask) hne
    (dedupAux_eq_self [] t (by simp) hnd)]
  show Except.ok (t.filter (fun r =>
    decide ((if m = 0 then quantile90 (t.map Row.n) / (3 / 2) else m) ≤ r.n))) = _
  rw [if_neg hm, List.filter_eq_self.mpr (fun r hr => decide_eq_true (hn r hr))]

/-- Claim C6: on an input whose every chunk is filtered down to zero
surviving rows, `munge` aborts, but with the pandas concatenation
error (`pd.concat` on the empty `dat_list`), not the "After applying
filters, no SNPs remain" empty-result error — the empty-result check
sits after the concatenation and cannot be reached on this path. -/
theorem munge_all_chunks_empty_concat_error :
    munge none [[bad_row_c6]] = .error .noObjectsToConcatenate ∧
      MungeError.noObjectsToConcatenate ≠ MungeError.emptyResult := by
  refine ⟨?_, by decide⟩
  have hcf : chunk_filter [bad_row_c6] = [] := by
    norm_num [chunk_filter, upper_alleles, row_mask, filter_pvals, bad_row_c6,
      List.filter_cons, upper_char]
  unfold munge parse_dat_chunks
  rw [List.map_cons, List.map_nil, hcf, List.filter_cons]
  simp

/-- Claim C7 (amended): with an explicitly configured *nonzero* minimum
sample size (`--n-min`; Python's truthiness test makes an explicit `0`
behave like an unset flag), a second `munge` pass over a nonempty
first-pass output drops zero rows; it is the quantile-derived fallback
threshold that breaks idempotence. -/
theorem munge_idempotent_explicit_nmin (m : ℚ) (hm : m ≠ 0) (chunks : List (List Row))
    (t1 : List Row) (h : munge (some m) chunks = .ok t1) (hne : t1 ≠ []) :
    munge (some m) [t1] = .ok t1 := by
  obtain ⟨hmem, hnd⟩ := munge_ok_inversion (some m) chunks t1 h
  exact munge_fixed m hm t1 hne (fun r hr => (hmem r hr).1) (fun r hr => (hmem r hr).2.1)
    (fun r hr => (hmem r hr).2.2 m rfl hm) hnd

/-- Claim C7 (amended), witness: a one-row table with `N = 10` and
threshold `5` (nonzero) is a fixed point of a second pass. -/
theorem munge_idempotent_explicit_nmin_witness :
    munge (some 5) [[mkRow "s1" 10]] = .ok [mkRow "s1" 10] ∧
      munge (some 5) [[mkRow "s1" 10]] ≠ .ok [] := by
  have hcf : chunk_filter [mkRow "s1" 10] = [mkRow "s1" 10] := by
    norm_num [chunk_filter, upper_alleles, row_mask, filter_pvals, validSnp, validPair,
      isBase, COMPLEMENT, upper_char, mkRow, List.filter_cons]
  have h1 : munge (some 5) [[mkRow "s1" 10]] = .ok [mkRow "s1" 10] := by
    rw [munge_eval_one_chunk (some 5) _ hcf (by simp)
      (dedupAux_eq_self [] _ (by simp) (by decide))]
    norm_num [n_filter, mkRow, List.filter_cons]
  exact ⟨munge_idempotent_explicit_nmin 5 (by norm_num) [[mkRow "s1" 10]]
    [mkRow "s1" 10] h1 (by simp), by rw [h1]; simp⟩

/-- Claim C7, counterexample: `t1_c7` is a clean, schema-conformant
table — it is itself the output of a `munge` pass, has no missing
values, P-values in `(0,1]`, strand-unambiguous alleles, and unique
SNPs — yet a second `munge` pass with the default quantile-based N
threshold drops five of its six rows (the recomputed 90th percentile
rises once the low-N rows are gone). -/
theorem munge_second_run_drops_counterexample :
    munge none [t0_c7] = .ok t1_c7 ∧
      (∀ r ∈ t1_c7, 0 < r.p ∧ r.p ≤ 1 ∧ validSnp (r.a1 ++ r.a2) = true) ∧
      (t1_c7.map Row.snp).Nodup ∧
      munge none [t1_c7] = .ok t2_c7 ∧
      t1_c7.length = 6 ∧ t2_c7.length = 1 := by
  have hcf0 : chunk_filter t0_c7 = t0_c7 := by
    norm_num [chunk_filter, upper_alleles, row_mask, filter_pvals, validSnp, validPair,
      isBase, COMPLEMENT, upper_char, t0_c7, mkRow, List.filter_cons]
  have hcf1 : chunk_filter t1_c7 = t1_c7 := by
    norm_num [chunk_filter, upper_alleles, row_mask, filter_pvals, validSnp, validPair,
      isBase, COMPLEMENT, upper_char, t1_c7, mkRow, List.filter_cons]
  have hq0 : quantile90 (t0_c7.map Row.n) = 144 := by
    norm_num [quantile90, t0_c7, mkRow, List.insertionSort, List.orderedInsert]
  have hq1 : quantile90 (t1_c7.map Row.n) = 155 := by
    norm_num [quantile90, t1_c7, mkRow, List.insertionSort, List.orderedInsert]
  have hnf0 : n_filter none t0_c7 = t1_c7 := by
    show t0_c7.filter (fun r => decide (quantile90 (t0_c7.map Row.n) / (3 / 2) ≤ r.n)) = _
    rw [hq0]
    norm_num [t0_c7, t1_c7, mkRow, List.filter_cons]
  have hnf1 : n_filter none t1_c7 = t2_c7 := by
    show t1_c7.filter (fun r => decide (quantile90 (t1_c7.map Row.n) / (3 / 2) ≤ r.n)) = _
    rw [hq1]
    norm_num [t1_c7, t2_c7, mkRow, List.filter_cons]
  refine ⟨?_, ?_, by decide, ?_, by decide, by decide⟩
  · rw [munge_eval_one_chunk none t0_c7 hcf0 (by simp [t0_c7])
      (dedupAux_eq_self [] _ (by simp) (by decide)), hnf0]
  · intro r hr
    fin_cases hr <;>
      exact ⟨by norm_num [t1_c7, mkRow], by norm_num [t1_c7, mkRow], by decide⟩
  · rw [munge_eval_one_chunk none t1_c7 hcf1 (by simp [t1_c7])
      (dedupAux_eq_self [] _ (by simp) (by decide)), hnf1]

/-- With pairwise-distinct table SNPs, filtering by one SNP id yields
the `find?` result (at most one row). -/
theorem filter_snp_of_nodup (dat : List SumRow) (s : String)
    (hu : (dat.map SumRow.snp).Nodup) :
    dat.filter (fun d => d.snp == s) = (dat.find? (fun d => d.snp == s)).toList := by
  induction dat with
  | nil => simp
  | cons d ds ih =>
    rw [List.map_cons, List.nodup_cons] at hu
    by_cases hd : (d.snp == s) = true
    · have hfind : (d :: ds).find? (fun d => d.snp == s) = some d :=
        List.find?_cons_of_pos ds hd
      rw [List.filter_cons, if_pos hd, hfind]
      have hnone : ds.filter (fun d => d.snp == s) = [] := by
        rw [List.filter_eq_nil_iff]
        intro x hx hxs
        refine hu.1 ?_
        have : x.snp = d.snp := by
          have h1 : x.snp = s := by simpa using hxs
          have h2 : d.snp = s := by simpa using hd
          rw [h1, h2]
        exact this ▸ List.mem_map_of_mem SumRow.snp hx
      rw [hnone]
      rfl
    · have hfind : (d :: ds).find? (fun d => d.snp == s) = ds.find? (fun d => d.snp == s) :=
        List.find?_cons_of_neg ds hd
      rw [List.filter_cons, if_neg hd, hfind]
      exact ih hu.2

/-- With pairwise-distinct table SNPs, the pandas left join degenerates
into one row per panel row, carrying the unique matching table row if
any. -/
theorem merge_left_of_nodup (alleles : List PanelRow) (dat : List SumRow)
    (hu : (dat.map SumRow.snp).Nodup) :
    merge_left alleles dat =
      alleles.map (fun p => (p, dat.find? (fun d => d.snp == p.snp))) := by
  induction alleles with
  | nil => rfl
  | cons p ps ih =>
    have hhead : (match dat.filter (fun d => d.snp == p.snp) with
        | [] => [(p, (none : Option SumRow))]
        | ms => ms.map (fun d => (p, some d))) =
          [(p, dat.find? (fun d => d.snp == p.snp))] := by
      rw [filter_snp_of_nodup dat p.snp hu]
      rcases hf : dat.find? (fun d => d.snp == p.snp) with _ | d
      · rw [hf]
        rfl
      · rw [hf]
        rfl
    unfold merge_left
    unfold merge_left at ih
    simp only [List.flatMap_cons]
    rw [hhead, ih, List.map_cons, List.singleton_append]

/-- Rows of `dat` with a given SNP, seen through `find?`, are unique:
under the Nodup hypothesis a found row is *the* row with that SNP. -/
theorem find_matching_of_exists (dat : List SumRow) (p : PanelRow)
    (hu : (dat.map SumRow.snp).Nodup)
    (hex : ∃ d ∈ dat, d.snp = p.snp ∧ matchTest d p = true) :
    ∃ d, dat.find? (fun d => d.snp == p.snp) = some d ∧ matchTest d p = true := by
  rcases hex with ⟨d, hd, hsnp, hm⟩
  have hsome : (dat.find? (fun d => d.snp == p.snp)).isSome := by
    rw [List.find?_isSome]
    exact ⟨d, hd, by simpa using hsnp⟩
  rcases Option.isSome_iff_exists.mp hsome with ⟨d0, hd0⟩
  have hd0mem : d0 ∈ dat := List.mem_of_find?_eq_some hd0
  have hd0snp : d0.snp = p.snp := by simpa using List.find?_some hd0
  have : d0 = d := List.inj_on_of_nodup_map hu hd0mem hd (by rw [hd0snp, hsnp])
  exact ⟨d0, hd0, this ▸ hm⟩

/-- Claim C3: with unique SNP identifiers, `allele_merge` returns the
spec's aligned join — exactly one row per panel row, in panel order,
keyed by the panel SNP, where a row absent from the table or failing
the allele-match test keeps its SNP but has every non-key field
nulled — and raises the "all alleles discordant" error exactly when
zero rows match. -/
theorem allele_merge_aligned_join (alleles : List PanelRow) (dat : List SumRow)
    (hu : (dat.map SumRow.snp).Nodup) :
    ((∃ p ∈ alleles, ∃ d ∈ dat, d.snp = p.snp ∧ matchTest d p = true) →
        allele_merge dat alleles = .ok (alignedJoin alleles dat) ∧
        (alignedJoin alleles dat).length = alleles.length ∧
        (alignedJoin alleles dat).map MergedRow.snp = alleles.map PanelRow.snp ∧
        ∀ mr ∈ alignedJoin alleles dat, ∀ b, mr.body = some b →
          ∃ d ∈ dat, d.snp = mr.snp ∧ b = d.body ∧
            ∃ p ∈ alleles, p.snp = mr.snp ∧ matchTest d p = true) ∧
      ((¬ ∃ p ∈ alleles, ∃ d ∈ dat, d.snp = p.snp ∧ matchTest d p = true) →
        allele_merge dat alleles = .error .allAllelesDiscordant) := by
  have hml := merge_left_of_nodup alleles dat hu
  have hcount : (merge_left alleles dat).countP (fun pr =>
      match pr.2 with
      | some d => matchTest d pr.1
      | none => false) =
        alleles.countP (fun p =>
          match dat.find? (fun d => d.snp == p.snp) with
          | some d => matchTest d p
          | none => false) := by
    rw [hml, List.countP_map]
    rfl
  have hiff : (∃ p ∈ alleles, ∃ d ∈ dat, d.snp = p.snp ∧ matchTest d p = true) ↔
      ¬ ((merge_left alleles dat).countP (fun pr =>
        match pr.2 with
        | some d => matchTest d pr.1
        | none => false) = 0) := by
    rw [hcount]
    constructor
    · intro hex hzero
      rcases hex with ⟨p, hp, hexd⟩
      rcases find_matching_of_exists dat p hu hexd with ⟨d0, hd0, hm0⟩
      have hcp := List.countP_eq_zero.mp hzero p hp
      rw [hd0] at hcp
      exact hcp hm0
    · intro hnz
      by_contra hnex
      refine hnz (List.countP_eq_zero.mpr ?_)
      intro p hp hmt
      rcases hf : dat.find? (fun d => d.snp == p.snp) with _ | d
      · rw [hf] at hmt
        exact absurd hmt (by simp)
      · rw [hf] at hmt
        replace hmt : matchTest d p = true := hmt
        refine hnex ⟨p, hp, d, List.mem_of_find?_eq_some hf, ?_, hmt⟩
        simpa using List.find?_some hf
  constructor
  · intro hex
    have hok : allele_merge dat alleles = .ok (alignedJoin alleles dat) := by
      unfold allele_merge
      rw [if_neg (hiff.mp hex), hml, List.map_map]
      rfl
    refine ⟨hok, by rw [alignedJoin, List.length_map], ?_, ?_⟩
    · rw [alignedJoin, List.map_map]
      refine List.map_congr_left ?_
      intro p _
      simp only [Function.comp_apply]
      rcases hf : dat.find? (fun d => d.snp == p.snp) with _ | d
      · rw [hf]
      · rw [hf]
        by_cases hm : matchTest d p = true
        · simp [hm]
        · simp [hm]
    · intro mr hmr b hb
      rcases List.mem_map.mp hmr with ⟨p, hp, hpe⟩
      rcases hf : dat.find? (fun d => d.snp == p.snp) with _ | d
      · rw [hf] at hpe
        replace hpe : (⟨p.snp, none⟩ : MergedRow) = mr := hpe
        rw [← hpe] at hb
        exact absurd hb (by simp)
      · rw [hf] at hpe
        replace hpe : (if matchTest d p = true then (⟨p.snp, some d.body⟩ : MergedRow)
          else ⟨p.snp, none⟩) = mr := hpe
        by_cases hm : matchTest d p = true
        · rw [if_pos hm] at hpe
          have hsnp : mr.snp = p.snp := by rw [← hpe]
          have hbody : b = d.body := by
            rw [← hpe] at hb
            simpa using hb.symm
          exact ⟨d, List.mem_of_find?_eq_some hf,
            by rw [hsnp]; simpa using List.find?_some hf,
            hbody, p, hp, hsnp.symm, hm⟩
        · rw [if_neg hm] at hpe
          rw [← hpe] at hb
          exact absurd hb (by simp)
  · intro hnex
    unfold allele_merge
    rw [if_pos (by by_contra hc; exact hnex (hiff.mpr hc))]

/-- Claim C3, witness: the one-row table (`rs1`, alleles `G`/`A`)
against the two-row panel (`rs1 : AG`, `rs2 : AC`): the flipped-order
pair matches, so the merge returns the aligned join. -/
theorem allele_merge_aligned_join_witness :
    (dt_c3.map SumRow.snp).Nodup ∧
      (∃ p ∈ pnl_c3, ∃ d ∈ dt_c3, d.snp = p.snp ∧ matchTest d p = true) ∧
      allele_merge dt_c3 pnl_c3 = .ok (alignedJoin pnl_c3 dt_c3) :=
  ⟨by decide, by decide,
    ((allele_merge_aligned_join pnl_c3 dt_c3 (by decide)).1 (by decide)).1⟩

end LDSC
